import Mathlib

/-!
Shallow embedding of the employee/shift/assignment roster tool
(`business.js` engine over the `persistence` JSON-file layer), together
with proofs of its specified properties.

Strings are manipulated through their character lists so that every
operation is a structural recursion the kernel can evaluate.
-/

/-- Models `String.prototype.trim`: strip leading and trailing whitespace
characters from a character list. -/
def jsTrim (s : List Char) : List Char :=
  ((s.dropWhile Char.isWhitespace).reverse.dropWhile Char.isWhitespace).reverse

/-- Trim of a whole string, as `String(x || "").trim()` produces it. -/
def jsTrimS (s : String) : String :=
  String.mk (jsTrim s.data)

/-- Models `str.split(":")` on a character list: the separators are removed
and the (possibly empty) fields are returned in order; the empty string
splits to one empty field, as in JavaScript. -/
def splitColons : List Char → List (List Char)
  | [] => [[]]
  | c :: rest =>
    if c = ':' then [] :: splitColons rest
    else
      match splitColons rest with
      | h :: t => (c :: h) :: t
      | [] => [[c]]

/-- Decimal value of a digit string, most significant digit first. -/
def digitsVal (cs : List Char) : Nat :=
  cs.foldl (fun n c => n * 10 + (c.toNat - '0'.toNat)) 0

/-- Models JavaScript `Number(s)` on the integral fragment this code base
exercises, as an optional natural number: the empty or all-whitespace
string parses to `0`, a trimmed nonempty digit string parses to its
decimal value, and every other string is NaN (`none`).  A NaN never wins
a `>` comparison, which the callers reflect by keeping their accumulator
on `none`. -/
def jsNumberNat (s : List Char) : Option Nat :=
  let t := jsTrim s
  if t.isEmpty then some 0
  else if t.all Char.isDigit then some (digitsVal t) else none

/-- Models JavaScript `Number(s)` as an optional rational: whitespace-only
parses to `0`; an optional sign followed by decimal digits with an
optional fractional part parses to its value; hexadecimal, exponent and
Infinity forms are modelled as NaN (`none`). -/
def jsNumberQ (s : List Char) : Option Rat :=
  match jsTrim s with
  | [] => some 0
  | t =>
    let sign : Rat := if t.headD ' ' = '-' then -1 else 1
    let body := if t.headD ' ' = '-' || t.headD ' ' = '+' then t.tail else t
    let intPart := body.takeWhile Char.isDigit
    let rest := body.dropWhile Char.isDigit
    match rest with
    | [] => if intPart.isEmpty then none else some (sign * digitsVal intPart)
    | '.' :: frac =>
      if frac.all Char.isDigit && !(intPart.isEmpty && frac.isEmpty) then
        some (sign * ((digitsVal intPart : Rat) +
          (digitsVal frac : Rat) / ((10 : Rat) ^ frac.length)))
      else none
    | _ => none

/-- Character of a decimal digit value (`0`–`9`). -/
def digitChar : Nat → Char
  | 0 => '0' | 1 => '1' | 2 => '2' | 3 => '3' | 4 => '4'
  | 5 => '5' | 6 => '6' | 7 => '7' | 8 => '8' | _ => '9'

/-- Decimal rendering with explicit fuel; `natDigits` supplies enough. -/
def natDigitsAux : Nat → Nat → List Char
  | 0, _ => []
  | fuel + 1, n =>
    if n < 10 then [digitChar n]
    else natDigitsAux fuel (n / 10) ++ [digitChar (n % 10)]

/-- Decimal digit characters of `n`, most significant first; models the
JavaScript rendering `String(n)` of a nonnegative integer. -/
def natDigits (n : Nat) : List Char :=
  natDigitsAux (n + 1) n

/-- Models `s.padStart(width, c)`: left-pad to `width` characters, leaving
longer strings unchanged. -/
def padStart (s : List Char) (width : Nat) (c : Char) : List Char :=
  List.replicate (width - s.length) c ++ s

/-- Models the strict code-unit comparison `a < b` JavaScript applies to
strings: lexicographic on characters. -/
def strLtb : List Char → List Char → Bool
  | _, [] => false
  | [], _ :: _ => true
  | a :: as, b :: bs => if a < b then true else if b < a then false else strLtb as bs

/-! The data model: the three JSON-backed collections plus the parsed
configuration, bundled as the store state an engine operation works on. -/

structure Employee where
  employeeId : String
  name : String
  phone : String
deriving DecidableEq, Repr

structure Shift where
  shiftId : String
  date : String
  startTime : String
  endTime : String
deriving DecidableEq, Repr

structure Assignment where
  employeeId : String
  shiftId : String
deriving DecidableEq, Repr

/-- Contents of `config.json` as far as `getMaxDailyHours` inspects them:
the file may be unreadable (missing or invalid JSON), or parse to a value
whose `maxDailyHours` member converts to a number (`some q`) or to NaN
(`none`). -/
inductive ConfigContent where
  | unreadable
  | value (maxDailyHours : Option Rat)
deriving DecidableEq, Repr

structure Store where
  employees : List Employee
  shifts : List Shift
  assignments : List Assignment
  config : ConfigContent
deriving DecidableEq, Repr

/-! The persistence layer, with the per-operation snapshot of the JSON
files represented by a `Store` value. -/

/-- Embeds `persistence.findEmployee`: first employee whose id matches. -/
def findEmployee (store : Store) (employeeId : String) : Option Employee :=
  store.employees.find? (fun e => e.employeeId == employeeId)

/-- Embeds `persistence.findShift`: first shift whose id matches. -/
def findShift (store : Store) (shiftId : String) : Option Shift :=
  store.shifts.find? (fun s => s.shiftId == shiftId)

/-- Embeds `persistence.findAssignment`: first assignment matching both ids. -/
def findAssignment (store : Store) (employeeId shiftId : String) : Option Assignment :=
  store.assignments.find? (fun a => a.employeeId == employeeId && a.shiftId == shiftId)

/-- Embeds `persistence.getAssignmentsByEmployee`. -/
def getAssignmentsByEmployee (store : Store) (employeeId : String) : List Assignment :=
  store.assignments.filter (fun a => a.employeeId == employeeId)

/-- Embeds `persistence.addEmployee`: read the array, push, write back. -/
def addEmployee (store : Store) (e : Employee) : Store :=
  { store with employees := store.employees ++ [e] }

/-- Embeds `persistence.addAssignment`: read the array, push, write back. -/
def addAssignment (store : Store) (a : Assignment) : Store :=
  { store with assignments := store.assignments ++ [a] }

/-- Embeds `persistence.getMaxDailyHours`: default `9` when the file is
unreadable, the member is NaN, or the value is zero or negative. -/
def getMaxDailyHours (c : ConfigContent) : Rat :=
  match c with
  | .unreadable => 9
  | .value none => 9
  | .value (some hours) => if hours ≤ 0 then 9 else hours

/-! The engine operations of `business.js`. -/

structure OpResult where
  ok : Bool
  message : String
deriving DecidableEq, Repr

/-- Embeds `business.getNextEmployeeId`: scan the numeric suffixes
(`Number(String(id).substring(1))`), keep the maximum (a NaN never wins
the `>` test), and render `"E"` ++ `String(max + 1).padStart(3, "0")`. -/
def getNextEmployeeId (employees : List Employee) : String :=
  let maxNumber := employees.foldl (fun m e =>
    match jsNumberNat e.employeeId.data.tail with
    | some n => if n > m then n else m
    | none => m) 0
  "E" ++ String.mk (padStart (natDigits (maxNumber + 1)) 3 '0')

/-- Embeds `business.addNewEmployee`. -/
def addNewEmployee (store : Store) (name phone : String) : OpResult × Store :=
  let n := jsTrimS name
  let p := jsTrimS phone
  if n == "" || p == "" then (⟨false, "Invalid input."⟩, store)
  else
    let employee : Employee := ⟨getNextEmployeeId store.employees, n, p⟩
    (⟨true, "Employee added..."⟩, addEmployee store employee)

/-- Embeds `business.assignEmployeeToShift` with its exact check order. -/
def assignEmployeeToShift (store : Store) (employeeId shiftId : String) :
    OpResult × Store :=
  let empId := jsTrimS employeeId
  let shId := jsTrimS shiftId
  if empId == "" || shId == "" then (⟨false, "Invalid input."⟩, store)
  else
    match findEmployee store empId with
    | none => (⟨false, "Employee does not exist"⟩, store)
    | some _ =>
      match findShift store shId with
      | none => (⟨false, "Shift does not exist"⟩, store)
      | some _ =>
        match findAssignment store empId shId with
        | some _ => (⟨false, "Employee already assigned to shift"⟩, store)
        | none => (⟨true, "Shift Recorded"⟩, addAssignment store ⟨empId, shId⟩)

/-- Sort key of a shift row: the string concatenation `date + startTime`. -/
def shiftKey (s : Shift) : List Char :=
  s.date.data ++ s.startTime.data

/-- One inner pass of the exchange sort in `business.sortShifts` with the
row at the current index `j` carried explicitly: when the next row's key
is strictly smaller (`rows[j] > rows[j+1]` in the source), the rows swap
and the carried row moves on to index `j+1`; otherwise the next row is
carried instead. -/
def bubblePassC (x : Shift) : List Shift → List Shift
  | [] => [x]
  | b :: rest =>
    if strLtb (shiftKey b) (shiftKey x) then b :: bubblePassC x rest
    else x :: bubblePassC b rest

/-- One full inner pass (`j` from `0` to `rows.length - 2`). -/
def bubblePass : List Shift → List Shift
  | [] => []
  | a :: rest => bubblePassC a rest

/-- Iterate the inner pass, once per outer-loop index. -/
def bubblePasses : Nat → List Shift → List Shift
  | 0, rows => rows
  | n + 1, rows => bubblePasses n (bubblePass rows)

/-- Embeds `business.sortShifts`: `rows.length` full passes of the
adjacent-exchange loop. -/
def sortShifts (rows : List Shift) : List Shift :=
  bubblePasses rows.length rows

structure ScheduleResult where
  ok : Bool
  message : Option String
  rows : Option (List Shift)
deriving DecidableEq, Repr

/-- Embeds `business.getEmployeeSchedule`: missing employee fails;
otherwise each assignment of the employee is resolved to its shift (a
lookup miss is skipped) and the rows are sorted. -/
def getEmployeeSchedule (store : Store) (employeeId : String) :
    ScheduleResult × Store :=
  let empId := jsTrimS employeeId
  match findEmployee store empId with
  | none => (⟨false, some "", none⟩, store)
  | some _ =>
    let assignments := getAssignmentsByEmployee store empId
    let rows := assignments.filterMap (fun a => findShift store a.shiftId)
    (⟨true, none, some (sortShifts rows)⟩, store)

/-- Continuation of `business.computeShiftDuration` after the four
`Number(...)` conversions: the NaN test, the range test, the midnight
rollover and the division by 60. -/
def durationFromParts : Option Rat → Option Rat → Option Rat → Option Rat → Rat
  | some sh, some sm, some eh, some em =>
    if sh < 0 ∨ sh > 23 ∨ eh < 0 ∨ eh > 23 ∨
        sm < 0 ∨ sm > 59 ∨ em < 0 ∨ em > 59 then 0
    else
      let startMinutes := sh * 60 + sm
      let endMinutes := eh * 60 + em
      let rolled := if endMinutes < startMinutes then endMinutes + 24 * 60
        else endMinutes
      (rolled - startMinutes) / 60
  | _, _, _, _ => 0

/-- Embeds `business.computeShiftDuration`, returning the hour count as an
exact rational: trim and split both strings on `":"`, require exactly two
fields each, convert the fields with `Number(...)` and hand over to
`durationFromParts`. -/
def computeShiftDuration (startTime endTime : String) : Rat :=
  match splitColons (jsTrim startTime.data), splitColons (jsTrim endTime.data) with
  | [sh0, sm0], [eh0, em0] =>
    durationFromParts (jsNumberQ sh0) (jsNumberQ sm0) (jsNumberQ eh0) (jsNumberQ em0)
  | _, _ => 0

/-! The raw persisted form of a collection file, for the storage-failure
policy of `persistence.readJsonArray`. -/

/-- State of one JSON-backed collection file: missing from disk, holding
text that `JSON.parse` rejects, parsing to a non-array value, or parsing
to an array of records. -/
inductive StoredFile (α : Type) where
  | missing
  | invalidJson
  | nonArray
  | array (items : List α)
deriving DecidableEq, Repr

/-- Embeds `persistence.readJsonArray`: the parsed array when there is
one, and the empty list in every failure case (the `try`/`catch` and the
`Array.isArray` guard). -/
def readJsonArray {α : Type} : StoredFile α → List α
  | .array items => items
  | _ => []

/-- The on-disk state of all four files. -/
structure StoreFiles where
  employeesFile : StoredFile Employee
  shiftsFile : StoredFile Shift
  assignmentsFile : StoredFile Assignment
  config : ConfigContent
deriving DecidableEq, Repr

/-- The store snapshot an operation observes for a given disk state. -/
def loadStore (files : StoreFiles) : Store :=
  { employees := readJsonArray files.employeesFile
    shifts := readJsonArray files.shiftsFile
    assignments := readJsonArray files.assignmentsFile
    config := files.config }

/-- Replace every unreadable or malformed collection file by an empty
array; the claim is that operations cannot tell the difference. -/
def normalizeFile {α : Type} : StoredFile α → StoredFile α
  | .array items => .array items
  | _ => .array []

def normalizeFiles (files : StoreFiles) : StoreFiles :=
  { employeesFile := normalizeFile files.employeesFile
    shiftsFile := normalizeFile files.shiftsFile
    assignmentsFile := normalizeFile files.assignmentsFile
    config := files.config }

/-! Specification-side vocabulary used by the theorem statements. -/

/-- The schedule ordering contract: `a` precedes `b` when the raw string
`a.date + a.startTime` is not strictly greater than `b`'s key. -/
def ShiftLe (a b : Shift) : Prop :=
  strLtb (shiftKey b) (shiftKey a) = false

/-- The store invariant: at most one assignment per
`(employeeId, shiftId)` pair. -/
def UniquePairs (assignments : List Assignment) : Prop :=
  List.Pairwise
    (fun a b => ¬(a.employeeId = b.employeeId ∧ a.shiftId = b.shiftId)) assignments

/-- Numeric suffix of an employee id: the number parsed from the substring
after the first character, with non-numeric or malformed values
contributing `0`. -/
def numericSuffix (id : String) : Nat :=
  (jsNumberNat id.data.tail).getD 0

/-- Maximum numeric suffix over an employee list. -/
def maxNumericSuffix (L : List Employee) : Nat :=
  L.foldl (fun m e => max (numericSuffix e.employeeId) m) 0

/-- Minute count of two parsed `"HH:MM"` components, or `none` when either
is NaN or out of range. -/
def minutesFromParts : Option Rat → Option Rat → Option Rat
  | some h, some m =>
    if 0 ≤ h ∧ h ≤ 23 ∧ 0 ≤ m ∧ m ≤ 59 then some (h * 60 + m) else none
  | _, _ => none

/-- Modelled from the spec wording of 4.6: a `"HH:MM"` string converted to
minutes since midnight, or `none` when it does not split into exactly two
numeric components with `0 ≤ HH ≤ 23` and `0 ≤ MM ≤ 59`. -/
def minutesSinceMidnight (t : String) : Option Rat :=
  match splitColons (jsTrim t.data) with
  | [h0, m0] => minutesFromParts (jsNumberQ h0) (jsNumberQ m0)
  | _ => none

/-- The duration the specification prescribes for two optional minute
counts: `0` when either is absent, else the midnight-rollover difference
in hours. -/
def combineMinutes : Option Rat → Option Rat → Rat
  | some a, some b => ((if b < a then b + 24 * 60 else b) - a) / 60
  | _, _ => 0

/-! Claim C1: validation order of `assignEmployeeToShift`. -/

/-- C1: for every store and pair of input strings, `assignEmployeeToShift`
short-circuits on the first failing check in this exact order — empty
trimmed id: `"Invalid input."`; unknown employee (regardless of the
shift): `"Employee does not exist"`; unknown shift: `"Shift does not
exist"`; duplicate pair: `"Employee already assigned to shift"`; and
otherwise it appends exactly one new assignment and reports
`"Shift Recorded"`.  Failing calls leave the store unchanged. -/
theorem assign_validation_order (store : Store) (employeeId shiftId : String) :
    (jsTrimS employeeId = "" ∨ jsTrimS shiftId = "" →
      assignEmployeeToShift store employeeId shiftId =
        (⟨false, "Invalid input."⟩, store)) ∧
    (jsTrimS employeeId ≠ "" → jsTrimS shiftId ≠ "" →
      findEmployee store (jsTrimS employeeId) = none →
      assignEmployeeToShift store employeeId shiftId =
        (⟨false, "Employee does not exist"⟩, store)) ∧
    (∀ emp, jsTrimS employeeId ≠ "" → jsTrimS shiftId ≠ "" →
      findEmployee store (jsTrimS employeeId) = some emp →
      findShift store (jsTrimS shiftId) = none →
      assignEmployeeToShift store employeeId shiftId =
        (⟨false, "Shift does not exist"⟩, store)) ∧
    (∀ emp sh a, jsTrimS employeeId ≠ "" → jsTrimS shiftId ≠ "" →
      findEmployee store (jsTrimS employeeId) = some emp →
      findShift store (jsTrimS shiftId) = some sh →
      findAssignment store (jsTrimS employeeId) (jsTrimS shiftId) = some a →
      assignEmployeeToShift store employeeId shiftId =
        (⟨false, "Employee already assigned to shift"⟩, store)) ∧
    (∀ emp sh, jsTrimS employeeId ≠ "" → jsTrimS shiftId ≠ "" →
      findEmployee store (jsTrimS employeeId) = some emp →
      findShift store (jsTrimS shiftId) = some sh →
      findAssignment store (jsTrimS employeeId) (jsTrimS shiftId) = none →
      assignEmployeeToShift store employeeId shiftId =
        (⟨true, "Shift Recorded"⟩,
         { store with assignments :=
            store.assignments ++ [⟨jsTrimS employeeId, jsTrimS shiftId⟩] })) := by
  refine ⟨?_, ?_, ?_, ?_, ?_⟩
  · rintro (h | h) <;> simp [assignEmployeeToShift, h]
  · intro h1 h2 h3
    simp [assignEmployeeToShift, h1, h2, h3]
  · intro emp h1 h2 h3 h4
    simp [assignEmployeeToShift, h1, h2, h3, h4]
  · intro emp sh a h1 h2 h3 h4 h5
    simp [assignEmployeeToShift, h1, h2, h3, h4, h5]
  · intro emp sh h1 h2 h3 h4 h5
    simp [assignEmployeeToShift, addAssignment, h1, h2, h3, h4, h5]

/-- Witness for C1: each of the five outcomes reached at a concrete store. -/
theorem assign_validation_order_witness :
    assignEmployeeToShift ⟨[⟨"E001", "a", "p"⟩], [⟨"S1", "d", "s", "e"⟩],
        [⟨"E001", "S2"⟩], .unreadable⟩ " " "S1" =
      (⟨false, "Invalid input."⟩,
       ⟨[⟨"E001", "a", "p"⟩], [⟨"S1", "d", "s", "e"⟩],
        [⟨"E001", "S2"⟩], .unreadable⟩) ∧
    assignEmployeeToShift ⟨[⟨"E001", "a", "p"⟩], [⟨"S1", "d", "s", "e"⟩],
        [], .unreadable⟩ "E002" "NOSHIFT" =
      (⟨false, "Employee does not exist"⟩,
       ⟨[⟨"E001", "a", "p"⟩], [⟨"S1", "d", "s", "e"⟩], [], .unreadable⟩) ∧
    assignEmployeeToShift ⟨[⟨"E001", "a", "p"⟩], [⟨"S1", "d", "s", "e"⟩],
        [], .unreadable⟩ "E001" "S9" =
      (⟨false, "Shift does not exist"⟩,
       ⟨[⟨"E001", "a", "p"⟩], [⟨"S1", "d", "s", "e"⟩], [], .unreadable⟩) ∧
    assignEmployeeToShift ⟨[⟨"E001", "a", "p"⟩], [⟨"S1", "d", "s", "e"⟩],
        [⟨"E001", "S1"⟩], .unreadable⟩ "E001" "S1" =
      (⟨false, "Employee already assigned to shift"⟩,
       ⟨[⟨"E001", "a", "p"⟩], [⟨"S1", "d", "s", "e"⟩],
        [⟨"E001", "S1"⟩], .unreadable⟩) ∧
    assignEmployeeToShift ⟨[⟨"E001", "a", "p"⟩], [⟨"S1", "d", "s", "e"⟩],
        [], .unreadable⟩ " E001 " "S1" =
      (⟨true, "Shift Recorded"⟩,
       ⟨[⟨"E001", "a", "p"⟩], [⟨"S1", "d", "s", "e"⟩],
        [⟨"E001", "S1"⟩], .unreadable⟩) := by
  refine ⟨?_, ?_, ?_, ?_, ?_⟩
  · exact (assign_validation_order _ _ _).1 (Or.inl (by decide))
  · exact (assign_validation_order _ _ _).2.1 (by decide) (by decide) (by decide)
  · exact (assign_validation_order _ _ _).2.2.1 ⟨"E001", "a", "p"⟩
      (by decide) (by decide) (by decide) (by decide)
  · exact (assign_validation_order _ _ _).2.2.2.1 ⟨"E001", "a", "p"⟩
      ⟨"S1", "d", "s", "e"⟩ ⟨"E001", "S1"⟩
      (by decide) (by decide) (by decide) (by decide) (by decide)
  · exact (assign_validation_order _ _ _).2.2.2.2 ⟨"E001", "a", "p"⟩
      ⟨"S1", "d", "s", "e"⟩
      (by decide) (by decide) (by decide) (by decide) (by decide)

/-! Claim C7: `addNewEmployee` validation and write behaviour. -/

/-- C7: for every store and pair of input strings, `addNewEmployee`
returns `"Invalid input."` and leaves the store untouched when either
trimmed input is empty, and otherwise appends exactly one employee built
from the trimmed inputs and the generated next id, reporting
`"Employee added..."`. -/
theorem addNewEmployee_validation (store : Store) (name phone : String) :
    (jsTrimS name = "" ∨ jsTrimS phone = "" →
      addNewEmployee store name phone = (⟨false, "Invalid input."⟩, store)) ∧
    (jsTrimS name ≠ "" → jsTrimS phone ≠ "" →
      addNewEmployee store name phone =
        (⟨true, "Employee added..."⟩,
         { store with employees := store.employees ++
            [⟨getNextEmployeeId store.employees, jsTrimS name, jsTrimS phone⟩] })) := by
  constructor
  · rintro (h | h) <;> simp [addNewEmployee, h]
  · intro h1 h2
    simp [addNewEmployee, addEmployee, h1, h2]

/-- Witness for C7: the three empty-input shapes fail without a write, and
a valid pair appends one record. -/
theorem addNewEmployee_validation_witness :
    addNewEmployee ⟨[], [], [], .unreadable⟩ "" "x" =
      (⟨false, "Invalid input."⟩, ⟨[], [], [], .unreadable⟩) ∧
    addNewEmployee ⟨[], [], [], .unreadable⟩ "x" "" =
      (⟨false, "Invalid input."⟩, ⟨[], [], [], .unreadable⟩) ∧
    addNewEmployee ⟨[], [], [], .unreadable⟩ "" "" =
      (⟨false, "Invalid input."⟩, ⟨[], [], [], .unreadable⟩) ∧
    addNewEmployee ⟨[], [], [], .unreadable⟩ " Ann " "555" =
      (⟨true, "Employee added..."⟩,
       ⟨[⟨"E001", "Ann", "555"⟩], [], [], .unreadable⟩) := by
  refine ⟨?_, ?_, ?_, ?_⟩
  · exact (addNewEmployee_validation _ _ _).1 (Or.inl (by decide))
  · exact (addNewEmployee_validation _ _ _).1 (Or.inr (by decide))
  · exact (addNewEmployee_validation _ _ _).1 (Or.inl (by decide))
  · have h := (addNewEmployee_validation ⟨[], [], [], .unreadable⟩
      " Ann " "555").2 (by decide) (by decide)
    simpa [getNextEmployeeId, natDigits, natDigitsAux, digitChar, padStart,
      jsTrimS, jsTrim] using h

/-! Claim C10: each operation writes only its own backing collection. -/

/-- C10: `addNewEmployee` changes at most the employees collection,
`assignEmployeeToShift` at most the assignments collection, and
`getEmployeeSchedule` changes nothing at all. -/
theorem operation_frames (store : Store) (name phone employeeId shiftId : String) :
    (addNewEmployee store name phone).2.shifts = store.shifts ∧
    (addNewEmployee store name phone).2.assignments = store.assignments ∧
    (addNewEmployee store name phone).2.config = store.config ∧
    (assignEmployeeToShift store employeeId shiftId).2.employees = store.employees ∧
    (assignEmployeeToShift store employeeId shiftId).2.shifts = store.shifts ∧
    (assignEmployeeToShift store employeeId shiftId).2.config = store.config ∧
    (getEmployeeSchedule store employeeId).2 = store := by
  refine ⟨?_, ?_, ?_, ?_, ?_, ?_, ?_⟩ <;>
    (simp only [addNewEmployee, assignEmployeeToShift, getEmployeeSchedule,
      addEmployee, addAssignment]
     repeat' split
     all_goals rfl)

/-! Claim C9: the configuration never influences any operation. -/

/-- C9: two runs of any engine operation from states that differ only in
the configuration contents return identical results and leave identical
collections, each run keeping its own configuration: `maxDailyHours` is
read (`getMaxDailyHours`) but never applied. -/
theorem config_noninterference (emps : List Employee) (shs : List Shift)
    (asgs : List Assignment) (c₁ c₂ : ConfigContent)
    (name phone employeeId shiftId schedId : String) :
    (addNewEmployee ⟨emps, shs, asgs, c₁⟩ name phone).1 =
      (addNewEmployee ⟨emps, shs, asgs, c₂⟩ name phone).1 ∧
    (addNewEmployee ⟨emps, shs, asgs, c₁⟩ name phone).2.employees =
      (addNewEmployee ⟨emps, shs, asgs, c₂⟩ name phone).2.employees ∧
    (addNewEmployee ⟨emps, shs, asgs, c₁⟩ name phone).2.shifts =
      (addNewEmployee ⟨emps, shs, asgs, c₂⟩ name phone).2.shifts ∧
    (addNewEmployee ⟨emps, shs, asgs, c₁⟩ name phone).2.assignments =
      (addNewEmployee ⟨emps, shs, asgs, c₂⟩ name phone).2.assignments ∧
    (assignEmployeeToShift ⟨emps, shs, asgs, c₁⟩ employeeId shiftId).1 =
      (assignEmployeeToShift ⟨emps, shs, asgs, c₂⟩ employeeId shiftId).1 ∧
    (assignEmployeeToShift ⟨emps, shs, asgs, c₁⟩ employeeId shiftId).2.employees =
      (assignEmployeeToShift ⟨emps, shs, asgs, c₂⟩ employeeId shiftId).2.employees ∧
    (assignEmployeeToShift ⟨emps, shs, asgs, c₁⟩ employeeId shiftId).2.shifts =
      (assignEmployeeToShift ⟨emps, shs, asgs, c₂⟩ employeeId shiftId).2.shifts ∧
    (assignEmployeeToShift ⟨emps, shs, asgs, c₁⟩ employeeId shiftId).2.assignments =
      (assignEmployeeToShift ⟨emps, shs, asgs, c₂⟩ employeeId shiftId).2.assignments ∧
    (getEmployeeSchedule ⟨emps, shs, asgs, c₁⟩ schedId).1 =
      (getEmployeeSchedule ⟨emps, shs, asgs, c₂⟩ schedId).1 ∧
    (getEmployeeSchedule ⟨emps, shs, asgs, c₁⟩ schedId).2.employees =
      (getEmployeeSchedule ⟨emps, shs, asgs, c₂⟩ schedId).2.employees ∧
    (getEmployeeSchedule ⟨emps, shs, asgs, c₁⟩ schedId).2.shifts =
      (getEmployeeSchedule ⟨emps, shs, asgs, c₂⟩ schedId).2.shifts ∧
    (getEmployeeSchedule ⟨emps, shs, asgs, c₁⟩ schedId).2.assignments =
      (getEmployeeSchedule ⟨emps, shs, asgs, c₂⟩ schedId).2.assignments := by
  refine ⟨?_, ?_, ?_, ?_, ?_, ?_, ?_, ?_, ?_, ?_, ?_, ?_⟩ <;>
    (simp only [addNewEmployee, assignEmployeeToShift, getEmployeeSchedule,
      addEmployee, addAssignment, findEmployee, findShift, findAssignment,
      getAssignmentsByEmployee]
     repeat' split
     all_goals rfl)

/-! Claim C8: storage absence or corruption reads as an empty collection. -/

/-- C8: reading a missing, unparseable, or non-array collection file
yields the empty list (the failure is never surfaced), and every engine
operation behaves on such a disk state exactly as on one where the bad
files hold empty arrays. -/
theorem storage_fail_open :
    (∀ (α : Type) (f : StoredFile α),
      f = .missing ∨ f = .invalidJson ∨ f = .nonArray → readJsonArray f = []) ∧
    (∀ files : StoreFiles, loadStore files = loadStore (normalizeFiles files)) ∧
    (∀ (files : StoreFiles) (name phone : String),
      addNewEmployee (loadStore files) name phone =
        addNewEmployee (loadStore (normalizeFiles files)) name phone) ∧
    (∀ (files : StoreFiles) (employeeId shiftId : String),
      assignEmployeeToShift (loadStore files) employeeId shiftId =
        assignEmployeeToShift (loadStore (normalizeFiles files)) employeeId shiftId) ∧
    (∀ (files : StoreFiles) (employeeId : String),
      getEmployeeSchedule (loadStore files) employeeId =
        getEmployeeSchedule (loadStore (normalizeFiles files)) employeeId) := by
  have hload : ∀ files : StoreFiles, loadStore files = loadStore (normalizeFiles files) := by
    rintro ⟨ef, sf, af, c⟩
    cases ef <;> cases sf <;> cases af <;> rfl
  refine ⟨?_, hload, ?_, ?_, ?_⟩
  · rintro α f (rfl | rfl | rfl) <;> rfl
  · intro files name phone; rw [hload]
  · intro files employeeId shiftId; rw [hload]
  · intro files employeeId; rw [hload]

/-- Witness for C8: a fully corrupted disk state reads as empty and an
operation on it answers exactly as on the empty store. -/
theorem storage_fail_open_witness :
    readJsonArray (StoredFile.missing : StoredFile Employee) = [] ∧
    readJsonArray (StoredFile.invalidJson : StoredFile Shift) = [] ∧
    readJsonArray (StoredFile.nonArray : StoredFile Assignment) = [] ∧
    getEmployeeSchedule
        (loadStore ⟨.missing, .invalidJson, .nonArray, .unreadable⟩) "E001" =
      getEmployeeSchedule
        (loadStore ⟨.array [], .array [], .array [], .unreadable⟩) "E001" := by
  refine ⟨?_, ?_, ?_, ?_⟩
  · exact storage_fail_open.1 Employee _ (Or.inl rfl)
  · exact storage_fail_open.1 Shift _ (Or.inr (Or.inl rfl))
  · exact storage_fail_open.1 Assignment _ (Or.inr (Or.inr rfl))
  · exact storage_fail_open.2.2.2.2 ⟨.missing, .invalidJson, .nonArray, .unreadable⟩ "E001"

/-! Claim C2: at most one assignment per pair, and the double-call
scenario. -/

/-- C2: the at-most-one-assignment-per-pair invariant is preserved by
every engine operation, and calling `assignEmployeeToShift` twice for a
valid pair makes the first call succeed with `"Shift Recorded"`, the
second fail with `"Employee already assigned to shift"`, and leaves
exactly one matching assignment in the store. -/
theorem assignment_pair_invariant :
    (∀ (store : Store) (e s : String), UniquePairs store.assignments →
      UniquePairs (assignEmployeeToShift store e s).2.assignments) ∧
    (∀ (store : Store) (n p : String),
      (addNewEmployee store n p).2.assignments = store.assignments) ∧
    (∀ (store : Store) (e : String),
      (getEmployeeSchedule store e).2.assignments = store.assignments) ∧
    (∀ (store : Store) (e s : String) (emp : Employee) (sh : Shift),
      jsTrimS e ≠ "" → jsTrimS s ≠ "" →
      findEmployee store (jsTrimS e) = some emp →
      findShift store (jsTrimS s) = some sh →
      findAssignment store (jsTrimS e) (jsTrimS s) = none →
      (assignEmployeeToShift store e s).1 = ⟨true, "Shift Recorded"⟩ ∧
      (assignEmployeeToShift (assignEmployeeToShift store e s).2 e s).1 =
        ⟨false, "Employee already assigned to shift"⟩ ∧
      ((assignEmployeeToShift (assignEmployeeToShift store e s).2 e s).2.assignments.filter
        (fun a => a.employeeId == jsTrimS e && a.shiftId == jsTrimS s)).length = 1) := by
  refine ⟨?_, ?_, ?_, ?_⟩
  · intro store e s h
    simp only [assignEmployeeToShift]
    split
    · exact h
    · split
      · exact h
      · split
        · exact h
        · split
          · exact h
          · rename_i hnone
            simp only [addAssignment, UniquePairs]
            rw [List.pairwise_append]
            refine ⟨h, List.pairwise_singleton _ _, ?_⟩
            intro a ha b hb
            simp only [List.mem_singleton] at hb
            subst hb
            rw [findAssignment, List.find?_eq_none] at hnone
            have hfail := hnone a ha
            simp only [Bool.and_eq_true, beq_iff_eq] at hfail
            rintro ⟨h1, h2⟩
            exact hfail ⟨h1, h2⟩
  · intro store n p
    simp only [addNewEmployee, addEmployee]
    repeat' split
    all_goals rfl
  · intro store e
    simp only [getEmployeeSchedule]
    repeat' split
    all_goals rfl
  · intro store e s emp sh h1 h2 hemp hsh hnone
    have hfirst : assignEmployeeToShift store e s =
        (⟨true, "Shift Recorded"⟩,
         { store with assignments :=
            store.assignments ++ [⟨jsTrimS e, jsTrimS s⟩] }) := by
      simp [assignEmployeeToShift, addAssignment, h1, h2, hemp, hsh, hnone]
    have hemp2 : findEmployee { store with assignments :=
        store.assignments ++ [⟨jsTrimS e, jsTrimS s⟩] } (jsTrimS e) = some emp := hemp
    have hsh2 : findShift { store with assignments :=
        store.assignments ++ [⟨jsTrimS e, jsTrimS s⟩] } (jsTrimS s) = some sh := hsh
    have hdup : findAssignment { store with assignments :=
        store.assignments ++ [⟨jsTrimS e, jsTrimS s⟩] } (jsTrimS e) (jsTrimS s) =
        some ⟨jsTrimS e, jsTrimS s⟩ := by
      rw [findAssignment] at hnone ⊢
      simp only [List.find?_append, hnone, Option.none_or]
      simp [List.find?]
    refine ⟨by rw [hfirst], ?_, ?_⟩
    · rw [hfirst]
      simp [assignEmployeeToShift, h1, h2, hemp2, hsh2, hdup]
    · rw [hfirst]
      simp only [assignEmployeeToShift]
      rw [if_neg (by simp [h1, h2])]
      simp only [hemp2, hsh2, hdup]
      simp only [List.filter_append]
      have hnil : store.assignments.filter
          (fun a => a.employeeId == jsTrimS e && a.shiftId == jsTrimS s) = [] := by
        rw [List.filter_eq_nil_iff]
        intro a ha
        rw [findAssignment, List.find?_eq_none] at hnone
        exact hnone a ha
      rw [hnil]
      simp [List.filter]

/-- Witness for C2: the double-call scenario at a concrete store. -/
theorem assignment_pair_invariant_witness :
    (assignEmployeeToShift ⟨[⟨"E001", "a", "p"⟩], [⟨"S1", "d", "s", "e"⟩],
        [], .unreadable⟩ "E001" "S1").1 = ⟨true, "Shift Recorded"⟩ ∧
    (assignEmployeeToShift (assignEmployeeToShift ⟨[⟨"E001", "a", "p"⟩],
        [⟨"S1", "d", "s", "e"⟩], [], .unreadable⟩ "E001" "S1").2 "E001" "S1").1 =
      ⟨false, "Employee already assigned to shift"⟩ ∧
    ((assignEmployeeToShift (assignEmployeeToShift ⟨[⟨"E001", "a", "p"⟩],
        [⟨"S1", "d", "s", "e"⟩], [], .unreadable⟩ "E001" "S1").2 "E001" "S1").2.assignments.filter
      (fun a => a.employeeId == jsTrimS "E001" && a.shiftId == jsTrimS "S1")).length = 1 :=
  assignment_pair_invariant.2.2.2 ⟨[⟨"E001", "a", "p"⟩], [⟨"S1", "d", "s", "e"⟩],
    [], .unreadable⟩ "E001" "S1" ⟨"E001", "a", "p"⟩ ⟨"S1", "d", "s", "e"⟩
    (by decide) (by decide) (by decide) (by decide) (by decide)

/-! Order lemmas for the raw string comparison, and the exchange-sort
development shared by the schedule claims. -/

theorem strLtb_nil_right (a : List Char) : strLtb a [] = false := by
  cases a <;> simp [strLtb]

theorem strLtb_cons_cons (x y : Char) (xs ys : List Char) :
    strLtb (x :: xs) (y :: ys) =
      if x < y then true else if y < x then false else strLtb xs ys := by
  simp [strLtb]

theorem strLtb_irrefl (l : List Char) : strLtb l l = false := by
  induction l with
  | nil => rfl
  | cons c cs ih => simp [strLtb, ih]

theorem strLtb_asymm {a b : List Char} (h : strLtb a b = true) : strLtb b a = false := by
  induction a generalizing b with
  | nil =>
    cases b with
    | nil => simp [strLtb] at h
    | cons y ys => simp [strLtb_nil_right]
  | cons x xs ih =>
    cases b with
    | nil => simp [strLtb_nil_right] at h
    | cons y ys =>
      rw [strLtb_cons_cons] at h
      rw [strLtb_cons_cons]
      by_cases hxy : x < y
      · have hyx : ¬ y < x := fun hc => absurd (lt_trans hxy hc) (lt_irrefl x)
        simp [hxy, hyx]
      · by_cases hyx : y < x
        · simp [hxy, hyx] at h
        · simp only [hxy, hyx, if_false] at h
          simp only [hyx, hxy, if_false]
          exact ih h

theorem strLtb_le_trans {a b c : List Char} (hba : strLtb b a = false)
    (hcb : strLtb c b = false) : strLtb c a = false := by
  induction a generalizing b c with
  | nil => exact strLtb_nil_right c
  | cons x xs ih =>
    cases b with
    | nil => simp [strLtb] at hba
    | cons y ys =>
      cases c with
      | nil => simp [strLtb] at hcb
      | cons z zs =>
        rw [strLtb_cons_cons] at hba hcb
        rw [strLtb_cons_cons]
        by_cases hyx : y < x
        · simp [hyx] at hba
        · by_cases hzy : z < y
          · simp [hzy] at hcb
          · simp only [hyx, if_false] at hba
            simp only [hzy, if_false] at hcb
            by_cases hxy : x < y
            · have hxz : x < z := lt_of_lt_of_le hxy (not_lt.mp hzy)
              have hzx : ¬ z < x := fun hc => absurd (lt_trans hxz hc) (lt_irrefl x)
              simp [hzx, hxz]
            · simp only [hxy, if_false] at hba
              by_cases hyz : y < z
              · have hxz : x < z := lt_of_le_of_lt (not_lt.mp hyx) hyz
                have hzx : ¬ z < x := fun hc => absurd (lt_trans hxz hc) (lt_irrefl x)
                simp [hzx, hxz]
              · simp only [hyz, if_false] at hcb
                have hxz : ¬ x < z := fun hc =>
                  absurd (lt_of_lt_of_le hc (not_lt.mp hyz)) hxy
                have hzx : ¬ z < x := fun hc =>
                  absurd (lt_of_lt_of_le hc (not_lt.mp hyx)) hzy
                simp only [hzx, hxz, if_false]
                exact ih hba hcb

theorem strLtb_ne {a b : List Char} (h : strLtb a b = true) : a ≠ b := by
  rintro rfl
  simp [strLtb_irrefl] at h

theorem bubblePassC_perm (x : Shift) (l : List Shift) :
    (bubblePassC x l).Perm (x :: l) := by
  induction l generalizing x with
  | nil => exact List.Perm.refl _
  | cons b rest ih =>
    simp only [bubblePassC]
    split
    · exact ((ih x).cons b).trans (List.Perm.swap x b rest)
    · exact (ih b).cons x

theorem bubblePass_perm (l : List Shift) : (bubblePass l).Perm l := by
  cases l with
  | nil => exact List.Perm.refl _
  | cons a rest => exact bubblePassC_perm a rest

theorem bubblePassC_sorted {x : Shift} {l : List Shift}
    (h : List.Sorted ShiftLe (x :: l)) : bubblePassC x l = x :: l := by
  induction l generalizing x with
  | nil => rfl
  | cons b rest ih =>
    rw [List.sorted_cons] at h
    obtain ⟨hx, hrest⟩ := h
    have hxb : ShiftLe x b := hx b (by simp)
    rw [ShiftLe] at hxb
    simp [bubblePassC, hxb, ih hrest]

theorem bubblePass_sorted {l : List Shift} (h : List.Sorted ShiftLe l) :
    bubblePass l = l := by
  cases l with
  | nil => rfl
  | cons a rest => exact bubblePassC_sorted h

theorem bubblePassC_max (x : Shift) (l : List Shift) :
    ∃ l' m, bubblePassC x l = l' ++ [m] ∧ ∀ y ∈ x :: l, ShiftLe y m := by
  induction l generalizing x with
  | nil =>
    refine ⟨[], x, rfl, ?_⟩
    intro y hy
    simp only [List.mem_singleton] at hy
    subst hy
    exact strLtb_irrefl _
  | cons b rest ih =>
    simp only [bubblePassC]
    by_cases hswap : strLtb (shiftKey b) (shiftKey x) = true
    · obtain ⟨l', m, heq, hmax⟩ := ih x
      refine ⟨b :: l', m, by simp [hswap, heq], ?_⟩
      intro y hy
      simp only [List.mem_cons] at hy
      rcases hy with rfl | rfl | hy
      · exact hmax y (by simp)
      · have hbx : ShiftLe y x := strLtb_asymm hswap
        exact strLtb_le_trans hbx (hmax x (by simp))
      · exact hmax y (by simp [hy])
    · obtain ⟨l', m, heq, hmax⟩ := ih b
      rw [Bool.not_eq_true] at hswap
      refine ⟨x :: l', m, by simp [hswap, heq], ?_⟩
      intro y hy
      simp only [List.mem_cons] at hy
      rcases hy with rfl | rfl | hy
      · exact strLtb_le_trans hswap (hmax b (by simp))
      · exact hmax y (by simp)
      · exact hmax y (by simp [hy])

theorem bubblePassC_split (x : Shift) (l t : List Shift)
    (hsep : ∀ y ∈ x :: l, ∀ z ∈ t, ShiftLe y z)
    (hsort : List.Sorted ShiftLe t) :
    bubblePassC x (l ++ t) = bubblePassC x l ++ t := by
  induction l generalizing x with
  | nil =>
    simp only [List.nil_append, bubblePassC]
    have hxt : List.Sorted ShiftLe (x :: t) := by
      rw [List.sorted_cons]
      exact ⟨fun z hz => hsep x (by simp) z hz, hsort⟩
    rw [bubblePassC_sorted hxt]
    rfl
  | cons b rest ih =>
    rw [List.cons_append]
    simp only [bubblePassC]
    split
    · refine congrArg (b :: ·) (ih x ?_)
      intro y hy z hz
      simp only [List.mem_cons] at hy
      rcases hy with rfl | hy
      · exact hsep y (by simp) z hz
      · exact hsep y (by simp [hy]) z hz
    · refine congrArg (x :: ·) (ih b ?_)
      intro y hy z hz
      simp only [List.mem_cons] at hy
      rcases hy with rfl | hy
      · exact hsep y (by simp) z hz
      · exact hsep y (by simp [hy]) z hz

theorem bubblePasses_sorted_of_sep : ∀ (n : Nat) (l t : List Shift),
    l.length ≤ n → (∀ y ∈ l, ∀ z ∈ t, ShiftLe y z) →
    List.Sorted ShiftLe t → List.Sorted ShiftLe (bubblePasses n (l ++ t))
  | 0, l, t, hlen, _, hsort => by
    have : l = [] := List.length_eq_zero.mp (Nat.le_zero.mp hlen)
    subst this
    simpa [bubblePasses] using hsort
  | n + 1, [], t, _, _, hsort => by
    simp only [List.nil_append, bubblePasses, bubblePass_sorted hsort]
    have := bubblePasses_sorted_of_sep n [] t (by simp) (by simp) hsort
    simpa [bubblePasses] using this
  | n + 1, x :: l₁, t, hlen, hsep, hsort => by
    simp only [bubblePasses, List.cons_append]
    have hpass : bubblePass ((x :: l₁) ++ t) = bubblePassC x l₁ ++ t := by
      simp only [List.cons_append, bubblePass]
      exact bubblePassC_split x l₁ t hsep hsort
    obtain ⟨l', m, heq, hmax⟩ := bubblePassC_max x l₁
    have hperm : (l' ++ [m]).Perm (x :: l₁) := heq ▸ bubblePassC_perm x l₁
    have hmem : ∀ y ∈ l' ++ [m], y ∈ x :: l₁ := fun y hy => hperm.mem_iff.mp hy
    have hlen' : l'.length ≤ n := by
      have h2 : l'.length + 1 = l₁.length + 1 := by simpa using hperm.length_eq
      have h3 : l₁.length + 1 ≤ n + 1 := by simpa using hlen
      omega
    have hgoal := bubblePasses_sorted_of_sep n l' (m :: t) hlen' ?_ ?_
    · simp only [List.cons_append, bubblePass] at *
      rw [bubblePassC_split x l₁ t hsep hsort, heq]
      simpa [List.append_assoc] using hgoal
    · intro y hy z hz
      have hyl : y ∈ x :: l₁ := hmem y (by simp [hy])
      simp only [List.mem_cons] at hz
      rcases hz with rfl | hz
      · exact hmax y hyl
      · exact hsep y hyl z hz
    · rw [List.sorted_cons]
      refine ⟨fun z hz => ?_, hsort⟩
      have hml : m ∈ x :: l₁ := hmem m (by simp)
      exact hsep m hml z hz

theorem bubblePasses_perm (n : Nat) (l : List Shift) :
    (bubblePasses n l).Perm l := by
  induction n generalizing l with
  | zero => exact List.Perm.refl _
  | succ n ih => exact (ih (bubblePass l)).trans (bubblePass_perm l)

theorem sortShifts_perm (rows : List Shift) : (sortShifts rows).Perm rows :=
  bubblePasses_perm rows.length rows

theorem sortShifts_sorted (rows : List Shift) :
    List.Sorted ShiftLe (sortShifts rows) := by
  have h := bubblePasses_sorted_of_sep rows.length rows [] (le_refl _)
    (by simp) List.sorted_nil
  simpa [sortShifts] using h

theorem bubblePassC_filter (x : Shift) (l : List Shift) (k : List Char) :
    (bubblePassC x l).filter (fun s => shiftKey s == k) =
      (x :: l).filter (fun s => shiftKey s == k) := by
  induction l generalizing x with
  | nil => rfl
  | cons b rest ih =>
    simp only [bubblePassC]
    split
    · rename_i hswap
      have hne : shiftKey b ≠ shiftKey x := strLtb_ne hswap
      by_cases hbk : (shiftKey b == k) = true
      · have hxk : (shiftKey x == k) = false := by
          rw [beq_iff_eq] at hbk
          rw [beq_eq_false_iff_ne]
          exact fun hc => hne (hbk.trans hc.symm)
        simp [List.filter_cons, hbk, hxk, ih x]
      · by_cases hxk : (shiftKey x == k) = true
        · simp [List.filter_cons, hbk, hxk, ih x]
        · simp [List.filter_cons, hbk, hxk, ih x]
    · simp [List.filter_cons, ih b]

theorem bubblePass_filter (l : List Shift) (k : List Char) :
    (bubblePass l).filter (fun s => shiftKey s == k) =
      l.filter (fun s => shiftKey s == k) := by
  cases l with
  | nil => rfl
  | cons a rest => exact bubblePassC_filter a rest k

theorem sortShifts_filter (rows : List Shift) (k : List Char) :
    (sortShifts rows).filter (fun s => shiftKey s == k) =
      rows.filter (fun s => shiftKey s == k) := by
  rw [sortShifts]
  generalize rows.length = n
  induction n generalizing rows with
  | zero => rfl
  | succ n ih =>
    simp only [bubblePasses]
    rw [ih (bubblePass rows), bubblePass_filter]

/-! Claim C5: `sortShifts` is a stable ascending sort by the raw
`date + startTime` key. -/

/-- C5: for every list of shift rows, `sortShifts` returns a permutation
of the input, sorted ascending by the lexicographic order of the raw
string concatenation `date + startTime`, stably (rows with equal
concatenated keys keep their relative input order, stated as
preservation of every equal-key sublist); the three-row example from the
specification comes out in the claimed order. -/
theorem sortShifts_contract :
    (∀ rows : List Shift, (sortShifts rows).Perm rows) ∧
    (∀ rows : List Shift, List.Sorted ShiftLe (sortShifts rows)) ∧
    (∀ (rows : List Shift) (k : List Char),
      (sortShifts rows).filter (fun s => shiftKey s == k) =
        rows.filter (fun s => shiftKey s == k)) ∧
    sortShifts [⟨"S1", "2024-01-02", "08:00", "12:00"⟩,
                ⟨"S2", "2024-01-01", "09:00", "12:00"⟩,
                ⟨"S3", "2024-01-01", "08:00", "12:00"⟩] =
      [⟨"S3", "2024-01-01", "08:00", "12:00"⟩,
       ⟨"S2", "2024-01-01", "09:00", "12:00"⟩,
       ⟨"S1", "2024-01-02", "08:00", "12:00"⟩] :=
  ⟨sortShifts_perm, sortShifts_sorted, sortShifts_filter, by decide⟩

/-! Claim C4: schedule retrieval. -/

/-- C4: when no employee matches the trimmed id, `getEmployeeSchedule`
returns `ok := false`; otherwise it returns `ok := true` with rows equal
to the employee's assignments resolved to shifts — an assignment whose
`shiftId` matches no stored shift is silently dropped by the resolving
`filterMap` — as a list sorted per the schedule ordering contract.  The
store is unchanged in both cases. -/
theorem getEmployeeSchedule_contract (store : Store) (employeeId : String) :
    (findEmployee store (jsTrimS employeeId) = none →
      getEmployeeSchedule store employeeId = (⟨false, some "", none⟩, store)) ∧
    (∀ emp, findEmployee store (jsTrimS employeeId) = some emp →
      ∃ rows, getEmployeeSchedule store employeeId = (⟨true, none, some rows⟩, store) ∧
        rows.Perm ((getAssignmentsByEmployee store (jsTrimS employeeId)).filterMap
          (fun a => findShift store a.shiftId)) ∧
        List.Sorted ShiftLe rows) := by
  constructor
  · intro h
    simp [getEmployeeSchedule, h]
  · intro emp h
    refine ⟨sortShifts ((getAssignmentsByEmployee store (jsTrimS employeeId)).filterMap
      (fun a => findShift store a.shiftId)), ?_, sortShifts_perm _, sortShifts_sorted _⟩
    simp [getEmployeeSchedule, h]

/-- Witness for C4: a missing employee fails, and a present employee with
one dangling assignment gets a successful, resolved answer. -/
theorem getEmployeeSchedule_contract_witness :
    getEmployeeSchedule ⟨[⟨"E001", "a", "p"⟩], [⟨"S1", "2024-01-01", "08:00", "12:00"⟩],
        [⟨"E001", "S1"⟩, ⟨"E001", "GONE"⟩], .unreadable⟩ "E777" =
      (⟨false, some "", none⟩,
       ⟨[⟨"E001", "a", "p"⟩], [⟨"S1", "2024-01-01", "08:00", "12:00"⟩],
        [⟨"E001", "S1"⟩, ⟨"E001", "GONE"⟩], .unreadable⟩) ∧
    (getEmployeeSchedule ⟨[⟨"E001", "a", "p"⟩], [⟨"S1", "2024-01-01", "08:00", "12:00"⟩],
        [⟨"E001", "S1"⟩, ⟨"E001", "GONE"⟩], .unreadable⟩ "E001").1.ok = true := by
  constructor
  · exact (getEmployeeSchedule_contract _ _).1 (by decide)
  · obtain ⟨rows, heq, -, -⟩ := (getEmployeeSchedule_contract
      ⟨[⟨"E001", "a", "p"⟩], [⟨"S1", "2024-01-01", "08:00", "12:00"⟩],
       [⟨"E001", "S1"⟩, ⟨"E001", "GONE"⟩], .unreadable⟩ "E001").2
      ⟨"E001", "a", "p"⟩ (by decide)
    rw [heq]

/-! Decimal-rendering lemmas and the identifier-generation claim C3. -/

theorem digitChar_isDigit (k : Nat) : (digitChar k).isDigit = true := by
  unfold digitChar
  split <;> rfl

theorem digitChar_toNat (k : Nat) (h : k < 10) : (digitChar k).toNat = '0'.toNat + k := by
  interval_cases k <;> rfl

theorem digitsVal_append_digit (l : List Char) (c : Char) :
    digitsVal (l ++ [c]) = digitsVal l * 10 + (c.toNat - '0'.toNat) := by
  simp [digitsVal, List.foldl_append]

theorem natDigitsAux_val : ∀ (fuel n : Nat), n < fuel →
    digitsVal (natDigitsAux fuel n) = n := by
  intro fuel
  induction fuel with
  | zero => omega
  | succ fuel ih =>
    intro n hn
    simp only [natDigitsAux]
    split
    · rename_i h10
      simp [digitsVal, digitChar_toNat n h10]
    · rename_i h10
      rw [digitsVal_append_digit, ih (n / 10) (by omega),
        digitChar_toNat (n % 10) (by omega)]
      omega

theorem natDigitsAux_digits : ∀ (fuel n : Nat) (c : Char),
    c ∈ natDigitsAux fuel n → c.isDigit = true := by
  intro fuel
  induction fuel with
  | zero => intro n c hc; simp [natDigitsAux] at hc
  | succ fuel ih =>
    intro n c hc
    simp only [natDigitsAux] at hc
    split at hc
    · simp only [List.mem_singleton] at hc
      subst hc
      exact digitChar_isDigit n
    · rw [List.mem_append] at hc
      rcases hc with hc | hc
      · exact ih (n / 10) c hc
      · simp only [List.mem_singleton] at hc
        subst hc
        exact digitChar_isDigit (n % 10)

theorem natDigits_ne_nil (n : Nat) : natDigits n ≠ [] := by
  rw [natDigits]
  simp only [natDigitsAux]
  split
  · simp
  · simp

theorem isDigit_not_whitespace (c : Char) (h : c.isDigit = true) :
    c.isWhitespace = false := by
  rw [Char.isWhitespace]
  simp only [Bool.or_eq_false_iff]
  refine ⟨⟨⟨?_, ?_⟩, ?_⟩, ?_⟩ <;>
    · rw [decide_eq_false_iff_not]
      rintro rfl
      exact absurd h (by decide)

theorem jsTrim_of_digits (l : List Char) (h : ∀ c ∈ l, c.isDigit = true) :
    jsTrim l = l := by
  rw [jsTrim]
  have h1 : l.dropWhile Char.isWhitespace = l := by
    cases l with
    | nil => rfl
    | cons c rest =>
      rw [List.dropWhile_cons, isDigit_not_whitespace c (h c (by simp))]
      simp
  rw [h1]
  have h2 : l.reverse.dropWhile Char.isWhitespace = l.reverse := by
    cases hrev : l.reverse with
    | nil => rfl
    | cons c rest =>
      have hc : c ∈ l := by
        rw [← List.mem_reverse, hrev]
        simp
      rw [List.dropWhile_cons, isDigit_not_whitespace c (h c hc)]
      simp
  rw [h2, List.reverse_reverse]

theorem jsNumberNat_of_digits (l : List Char) (hne : l ≠ [])
    (h : ∀ c ∈ l, c.isDigit = true) : jsNumberNat l = some (digitsVal l) := by
  simp only [jsNumberNat, jsTrim_of_digits l h]
  rw [if_neg (by simpa [List.isEmpty_iff] using hne),
    if_pos (by rw [List.all_eq_true]; exact h)]

theorem digitsVal_replicate_zero (k : Nat) (l : List Char) :
    digitsVal (List.replicate k '0' ++ l) = digitsVal l := by
  induction k with
  | zero => rfl
  | succ k ih =>
    rw [List.replicate_succ, List.cons_append]
    show (List.replicate k '0' ++ l).foldl (fun n c => n * 10 + (c.toNat - '0'.toNat))
      (0 * 10 + ('0'.toNat - '0'.toNat)) = digitsVal l
    simpa [digitsVal] using ih

theorem suffix_step_eq (m : Nat) (e : Employee) :
    (match jsNumberNat e.employeeId.data.tail with
     | some n => if n > m then n else m
     | none => m) = max (numericSuffix e.employeeId) m := by
  rw [numericSuffix]
  cases h : jsNumberNat e.employeeId.data.tail with
  | none => simp
  | some n =>
    simp only [Option.getD_some]
    split <;> omega

theorem suffix_fold_eq : ∀ (L : List Employee) (m : Nat),
    L.foldl (fun m e =>
      match jsNumberNat e.employeeId.data.tail with
      | some n => if n > m then n else m
      | none => m) m =
    L.foldl (fun m e => max (numericSuffix e.employeeId) m) m := by
  intro L
  induction L with
  | nil => intro m; rfl
  | cons e L ih =>
    intro m
    simp only [List.foldl_cons]
    rw [suffix_step_eq m e, ih]

theorem le_suffix_fold : ∀ (L : List Employee) (m : Nat),
    m ≤ L.foldl (fun m e => max (numericSuffix e.employeeId) m) m := by
  intro L
  induction L with
  | nil => intro m; exact le_refl m
  | cons e L ih =>
    intro m
    simp only [List.foldl_cons]
    exact le_trans (le_max_right _ m) (ih _)

theorem mem_le_suffix_fold : ∀ (L : List Employee) (m : Nat) (e : Employee),
    e ∈ L → numericSuffix e.employeeId ≤
      L.foldl (fun m e => max (numericSuffix e.employeeId) m) m := by
  intro L
  induction L with
  | nil => intro m e he; simp at he
  | cons x L ih =>
    intro m e he
    simp only [List.mem_cons] at he
    simp only [List.foldl_cons]
    rcases he with rfl | he
    · exact le_trans (le_max_left _ m) (le_suffix_fold L _)
    · exact ih _ e he

theorem getNextEmployeeId_eq (L : List Employee) :
    getNextEmployeeId L =
      "E" ++ String.mk (padStart (natDigits (maxNumericSuffix L + 1)) 3 '0') := by
  rw [getNextEmployeeId, maxNumericSuffix, suffix_fold_eq]

theorem numericSuffix_next (L : List Employee) :
    numericSuffix (getNextEmployeeId L) = maxNumericSuffix L + 1 := by
  rw [getNextEmployeeId_eq, numericSuffix]
  have hdata : ("E" ++ String.mk (padStart (natDigits (maxNumericSuffix L + 1)) 3 '0')).data =
      'E' :: padStart (natDigits (maxNumericSuffix L + 1)) 3 '0' := by
    rw [String.data_append]
    rfl
  rw [hdata]
  simp only [List.tail_cons]
  have hdig : ∀ c ∈ padStart (natDigits (maxNumericSuffix L + 1)) 3 '0',
      c.isDigit = true := by
    intro c hc
    rw [padStart, List.mem_append] at hc
    rcases hc with hc | hc
    · rw [List.eq_of_mem_replicate hc]
      rfl
    · exact natDigitsAux_digits _ _ c hc
  have hne : padStart (natDigits (maxNumericSuffix L + 1)) 3 '0' ≠ [] := by
    rw [padStart]
    intro hc
    rcases List.append_eq_nil.mp hc with ⟨-, h2⟩
    exact natDigits_ne_nil _ h2
  rw [jsNumberNat_of_digits _ hne hdig, Option.getD_some, padStart,
    digitsVal_replicate_zero, natDigits, natDigitsAux_val _ _ (by omega)]


/-- C3: for every employee list `L`, `getNextEmployeeId L` is `"E"`
followed by `1 +` the maximum numeric suffix over `L` zero-padded to at
least three digits, where the suffix of an id is the number parsed from
the substring after the first character, malformed values contributing
`0` without throwing; the empty list yields `"E001"`; and the generated
id's numeric suffix strictly exceeds every numeric suffix in `L`. -/
theorem getNextEmployeeId_contract :
    (∀ L : List Employee,
      getNextEmployeeId L =
        "E" ++ String.mk (padStart (natDigits (maxNumericSuffix L + 1)) 3 '0') ∧
      numericSuffix (getNextEmployeeId L) = maxNumericSuffix L + 1 ∧
      ∀ e ∈ L, numericSuffix e.employeeId < numericSuffix (getNextEmployeeId L)) ∧
    getNextEmployeeId [] = "E001" := by
  constructor
  · intro L
    refine ⟨getNextEmployeeId_eq L, numericSuffix_next L, ?_⟩
    intro e he
    rw [numericSuffix_next L]
    have := mem_le_suffix_fold L 0 e he
    rw [← maxNumericSuffix] at this
    omega
  · rfl

/-- Witness for C3: with suffixes `7` and a malformed id, the next id is
`"E008"` and its suffix exceeds the one of `"E007"`. -/
theorem getNextEmployeeId_contract_witness :
    ⟨"E007", "a", "p"⟩ ∈ [(⟨"E007", "a", "p"⟩ : Employee), ⟨"EX", "b", "q"⟩] ∧
    numericSuffix "E007" <
      numericSuffix (getNextEmployeeId [⟨"E007", "a", "p"⟩, ⟨"EX", "b", "q"⟩]) :=
  ⟨by decide,
   (getNextEmployeeId_contract.1 [⟨"E007", "a", "p"⟩, ⟨"EX", "b", "q"⟩]).2.2
     ⟨"E007", "a", "p"⟩ (by decide)⟩

/-! Claim C6: shift duration computation. -/

theorem combineMinutes_none_right (x : Option Rat) : combineMinutes x none = 0 := by
  cases x <;> rfl

theorem computeShiftDuration_eq (st et : String) :
    computeShiftDuration st et =
      combineMinutes (minutesSinceMidnight st) (minutesSinceMidnight et) := by
  rw [computeShiftDuration, minutesSinceMidnight, minutesSinceMidnight]
  rcases hs : splitColons (jsTrim st.data) with _ | ⟨sh0, _ | ⟨sm0, _ | srest⟩⟩ <;>
    rcases he : splitColons (jsTrim et.data) with _ | ⟨eh0, _ | ⟨em0, _ | erest⟩⟩ <;>
    try rfl
  all_goals try exact (combineMinutes_none_right _).symm
  change durationFromParts (jsNumberQ sh0) (jsNumberQ sm0) (jsNumberQ eh0) (jsNumberQ em0) =
    combineMinutes (minutesFromParts (jsNumberQ sh0) (jsNumberQ sm0))
      (minutesFromParts (jsNumberQ eh0) (jsNumberQ em0))
  rcases hp : jsNumberQ sh0 with _ | p <;> rcases hq : jsNumberQ sm0 with _ | q <;>
    rcases hr : jsNumberQ eh0 with _ | r <;> rcases hv : jsNumberQ em0 with _ | v <;>
    try rfl
  all_goals try exact (combineMinutes_none_right _).symm
  simp only [durationFromParts, minutesFromParts]
  by_cases hA : (0 : Rat) ≤ p ∧ p ≤ 23 ∧ (0 : Rat) ≤ q ∧ q ≤ 59
  · by_cases hB : (0 : Rat) ≤ r ∧ r ≤ 23 ∧ (0 : Rat) ≤ v ∧ v ≤ 59
    · rw [if_pos hA, if_pos hB, if_neg ?_]
      · rfl
      · simp only [not_or, not_lt]
        exact ⟨hA.1, hA.2.1, hB.1, hB.2.1, hA.2.2.1, hA.2.2.2, hB.2.2.1, hB.2.2.2⟩
    · rw [if_pos hA, if_neg hB, if_pos ?_]
      · exact (combineMinutes_none_right _).symm
      · rcases not_and_or.mp hB with h | hrest
        · exact Or.inr (Or.inr (Or.inl (not_le.mp h)))
        · rcases not_and_or.mp hrest with h | hrest2
          · exact Or.inr (Or.inr (Or.inr (Or.inl (not_le.mp h))))
          · rcases not_and_or.mp hrest2 with h | h
            · exact Or.inr (Or.inr (Or.inr (Or.inr (Or.inr (Or.inr (Or.inl (not_le.mp h)))))))
            · exact Or.inr (Or.inr (Or.inr (Or.inr (Or.inr (Or.inr (Or.inr (not_le.mp h)))))))
  · rw [if_neg hA, if_pos ?_]
    · rfl
    · rcases not_and_or.mp hA with h | hrest
      · exact Or.inl (not_le.mp h)
      · rcases not_and_or.mp hrest with h | hrest2
        · exact Or.inr (Or.inl (not_le.mp h))
        · rcases not_and_or.mp hrest2 with h | h
          · exact Or.inr (Or.inr (Or.inr (Or.inr (Or.inl (not_le.mp h)))))
          · exact Or.inr (Or.inr (Or.inr (Or.inr (Or.inr (Or.inl (not_le.mp h))))))

theorem isDigit_ne_minus (c : Char) (h : c.isDigit = true) : ¬(c = '-') := by
  rintro rfl
  exact absurd h (by decide)

theorem isDigit_ne_plus (c : Char) (h : c.isDigit = true) : ¬(c = '+') := by
  rintro rfl
  exact absurd h (by decide)

theorem takeWhile_all {p : Char → Bool} (l : List Char) (h : ∀ c ∈ l, p c = true) :
    l.takeWhile p = l := by
  induction l with
  | nil => rfl
  | cons c rest ih =>
    rw [List.takeWhile_cons, h c (by simp)]
    simp only [if_true]
    rw [ih (fun d hd => h d (by simp [hd]))]

theorem dropWhile_all {p : Char → Bool} (l : List Char) (h : ∀ c ∈ l, p c = true) :
    l.dropWhile p = [] := by
  induction l with
  | nil => rfl
  | cons c rest ih =>
    rw [List.dropWhile_cons, h c (by simp)]
    simp only [if_true]
    exact ih (fun d hd => h d (by simp [hd]))

theorem jsNumberQ_digits (l : List Char) (hne : l ≠ [])
    (h : ∀ c ∈ l, c.isDigit = true) : jsNumberQ l = some ((digitsVal l : Nat) : Rat) := by
  simp only [jsNumberQ, jsTrim_of_digits l h]
  cases l with
  | nil => exact absurd rfl hne
  | cons c rest =>
    have hc := h c (by simp)
    have hm := isDigit_ne_minus c hc
    have hp := isDigit_ne_plus c hc
    simp only [List.headD_cons]
    rw [if_neg (by simp [hm, hp])]
    rw [takeWhile_all (c :: rest) h, dropWhile_all (c :: rest) h]
    simp [hm]

theorem minutes_1100 : minutesSinceMidnight "11:00" = some 660 := by
  have hsplit : splitColons (jsTrim "11:00".data) = [['1','1'], ['0','0']] := by decide
  simp only [minutesSinceMidnight, hsplit]
  rw [jsNumberQ_digits ['1','1'] (by decide) (by decide),
    jsNumberQ_digits ['0','0'] (by decide) (by decide),
    show digitsVal ['1','1'] = 11 from by decide,
    show digitsVal ['0','0'] = 0 from by decide]
  simp only [minutesFromParts]
  rw [if_pos (by norm_num)]
  norm_num

theorem minutes_1330 : minutesSinceMidnight "13:30" = some 810 := by
  have hsplit : splitColons (jsTrim "13:30".data) = [['1','3'], ['3','0']] := by decide
  simp only [minutesSinceMidnight, hsplit]
  rw [jsNumberQ_digits ['1','3'] (by decide) (by decide),
    jsNumberQ_digits ['3','0'] (by decide) (by decide),
    show digitsVal ['1','3'] = 13 from by decide,
    show digitsVal ['3','0'] = 30 from by decide]
  simp only [minutesFromParts]
  rw [if_pos (by norm_num)]
  norm_num

theorem minutes_2300 : minutesSinceMidnight "23:00" = some 1380 := by
  have hsplit : splitColons (jsTrim "23:00".data) = [['2','3'], ['0','0']] := by decide
  simp only [minutesSinceMidnight, hsplit]
  rw [jsNumberQ_digits ['2','3'] (by decide) (by decide),
    jsNumberQ_digits ['0','0'] (by decide) (by decide),
    show digitsVal ['2','3'] = 23 from by decide,
    show digitsVal ['0','0'] = 0 from by decide]
  simp only [minutesFromParts]
  rw [if_pos (by norm_num)]
  norm_num

theorem minutes_0100 : minutesSinceMidnight "01:00" = some 60 := by
  have hsplit : splitColons (jsTrim "01:00".data) = [['0','1'], ['0','0']] := by decide
  simp only [minutesSinceMidnight, hsplit]
  rw [jsNumberQ_digits ['0','1'] (by decide) (by decide),
    jsNumberQ_digits ['0','0'] (by decide) (by decide),
    show digitsVal ['0','1'] = 1 from by decide,
    show digitsVal ['0','0'] = 0 from by decide]
  simp only [minutesFromParts]
  rw [if_pos (by norm_num)]
  norm_num

theorem minutes_2500 : minutesSinceMidnight "25:00" = none := by
  have hsplit : splitColons (jsTrim "25:00".data) = [['2','5'], ['0','0']] := by decide
  simp only [minutesSinceMidnight, hsplit]
  rw [jsNumberQ_digits ['2','5'] (by decide) (by decide),
    jsNumberQ_digits ['0','0'] (by decide) (by decide),
    show digitsVal ['2','5'] = 25 from by decide,
    show digitsVal ['0','0'] = 0 from by decide]
  simp only [minutesFromParts]
  rw [if_neg (by norm_num)]

theorem minutes_bad : minutesSinceMidnight "bad" = none := by decide

/-- C6: `computeShiftDuration` returns `0` whenever either input fails to
parse as a range-valid `"HH:MM"` string, and otherwise the difference of
the two minute counts in hours, adding 1440 minutes to the end when it
precedes the start (midnight rollover); the four specification examples
evaluate as claimed. -/
theorem computeShiftDuration_contract :
    (∀ st et : String,
      (minutesSinceMidnight st = none ∨ minutesSinceMidnight et = none →
        computeShiftDuration st et = 0) ∧
      (∀ a b : Rat, minutesSinceMidnight st = some a → minutesSinceMidnight et = some b →
        computeShiftDuration st et = ((if b < a then b + 24 * 60 else b) - a) / 60)) ∧
    computeShiftDuration "11:00" "13:30" = 5 / 2 ∧
    computeShiftDuration "23:00" "01:00" = 2 ∧
    computeShiftDuration "bad" "13:30" = 0 ∧
    computeShiftDuration "25:00" "01:00" = 0 := by
  refine ⟨?_, ?_, ?_, ?_, ?_⟩
  · intro st et
    constructor
    · rintro (h | h) <;> rw [computeShiftDuration_eq, h]
      · rfl
      · exact combineMinutes_none_right _
    · intro a b ha hb
      rw [computeShiftDuration_eq, ha, hb]
      rfl
  · rw [computeShiftDuration_eq, minutes_1100, minutes_1330]
    simp only [combineMinutes]
    rw [if_neg (by norm_num)]
    norm_num
  · rw [computeShiftDuration_eq, minutes_2300, minutes_0100]
    simp only [combineMinutes]
    rw [if_pos (by norm_num)]
    norm_num
  · rw [computeShiftDuration_eq, minutes_bad]
    rfl
  · rw [computeShiftDuration_eq, minutes_2500]
    rfl

/-- Witness for C6: the parse-failure branch applied at `"bad"`. -/
theorem computeShiftDuration_contract_witness :
    minutesSinceMidnight "bad" = none ∧ computeShiftDuration "bad" "13:30" = 0 :=
  ⟨by decide, (computeShiftDuration_contract.1 "bad" "13:30").1 (Or.inl (by decide))⟩
